import Mathlib

/-!
Verification development for the Kuroukai free-API repository.

The development shallowly embeds the repository's JavaScript core:

* `src/utils/keyUtils.js` — key expiry helpers (`getExpirationDate`,
  `isKeyValid`) and the client-origin resolver (`getClientIp`,
  `getIpVariants`) with its inner helpers `normalize`, `isPrivate`,
  `pickFirstPublic`;
* `src/middleware/adminAuth.js` — the in-memory admin session store
  (`requireAuth`, `logout`, `getActiveSessions`).

Strings are embedded as `List Char` (candidate strings are ASCII); header
values absent from a request are `Option.none`; JavaScript clock values
(milliseconds since the epoch) are embedded as `ℚ`.  `net.isIP` from Node's
standard library is embedded by `isIPv4`/`isIPv6` below, following Node's
`lib/internal/net.js` grammar (IPv4 dotted quad with no leading zeros;
IPv6 hex groups with at most one `::`, an optional embedded final IPv4
quad, and an optional `%zone` suffix).
-/

namespace KAPI

/-! ### Character helpers (ASCII) -/

/-- ASCII decimal digit `0`-`9` (codepoints 48-57). -/
def isDigitCh (c : Char) : Bool := 48 ≤ c.toNat && c.toNat ≤ 57

/-- ASCII hexadecimal digit (`0-9`, `a-f`, `A-F`), as in Node's `v6Seg`. -/
def isHexCh (c : Char) : Bool :=
  (48 ≤ c.toNat && c.toNat ≤ 57) || (97 ≤ c.toNat && c.toNat ≤ 102) ||
    (65 ≤ c.toNat && c.toNat ≤ 70)

/-- ASCII model of JavaScript `String.prototype.toLowerCase` on one char. -/
def lowerChar (c : Char) : Char :=
  if 65 ≤ c.toNat ∧ c.toNat ≤ 90 then Char.ofNat (c.toNat + 32) else c

/-- ASCII model of the whitespace class trimmed by JavaScript `trim()`. -/
def isSpaceCh (c : Char) : Bool :=
  c.toNat = 32 || c.toNat = 9 || c.toNat = 10 || c.toNat = 13 ||
    c.toNat = 11 || c.toNat = 12

/-! ### List-of-characters helpers -/

/-- `startsWithL p s` holds when `p` is an initial run of `s`
(JavaScript `s.startsWith(p)`). -/
def startsWithL : List Char → List Char → Bool
  | [], _ => true
  | _ :: _, [] => false
  | p :: ps, c :: cs => p == c && startsWithL ps cs

/-- Split on a separator character, JavaScript `s.split(sep)`:
`splitOnChar '.' "a..b" = ["a", "", "b"]`. -/
def splitOnChar (sep : Char) : List Char → List (List Char)
  | [] => [[]]
  | c :: cs =>
    match splitOnChar sep cs with
    | [] => [[]]
    | g :: gs => if c = sep then [] :: g :: gs else (c :: g) :: gs

/-- Re-join the pieces produced by `splitOnChar` with the separator. -/
def joinSep (sep : Char) : List (List Char) → List Char
  | [] => []
  | [g] => g
  | g :: gs => g ++ sep :: joinSep sep gs

/-- Split at the first occurrence of a character, returning the part before
it and the part after it (JavaScript `indexOf` + `slice`); `none` when the
character does not occur. -/
def breakAtChar (ch : Char) : List Char → Option (List Char × List Char)
  | [] => none
  | c :: cs =>
    if c = ch then some ([], cs)
    else (breakAtChar ch cs).map (fun p => (c :: p.1, p.2))

/-- Split at the first occurrence of the two-character run `::`, returning
the parts before and after it; `none` when `::` does not occur. -/
def breakOnCC : List Char → Option (List Char × List Char)
  | ':' :: ':' :: rest => some ([], rest)
  | c :: rest => (breakOnCC rest).map (fun p => (c :: p.1, p.2))
  | [] => none

/-- Drop leading whitespace (left half of JavaScript `trim()`). -/
def trimLeftL (s : List Char) : List Char := s.dropWhile isSpaceCh

/-- Drop trailing whitespace (right half of JavaScript `trim()`). -/
def trimRightL (s : List Char) : List Char :=
  ((s.reverse).dropWhile isSpaceCh).reverse

/-- JavaScript `String.prototype.trim` (ASCII whitespace model). -/
def trimL (s : List Char) : List Char := trimRightL (trimLeftL s)

/-! ### Node `net.isIP`: IPv4 -/

/-- One decimal octet of an IPv4 dotted quad, Node's
`v4Seg = 25[0-5] | 2[0-4]\d | 1\d\d | [1-9]\d | \d`:
value 0-255, no leading zero. -/
def isV4Seg : List Char → Bool
  | [c] => isDigitCh c
  | [c1, c2] => (49 ≤ c1.toNat && c1.toNat ≤ 57) && isDigitCh c2
  | [c1, c2, c3] =>
    (c1 = '1' && isDigitCh c2 && isDigitCh c3) ||
      (c1 = '2' && (48 ≤ c2.toNat && c2.toNat ≤ 52) && isDigitCh c3) ||
      (c1 = '2' && c2 = '5' && (48 ≤ c3.toNat && c3.toNat ≤ 53))
  | _ => false

/-- Decimal value of a digit string (used on strings of ASCII digits). -/
def segVal (g : List Char) : Nat := g.foldl (fun a c => a * 10 + (c.toNat - 48)) 0

/-- Parse an IPv4 dotted quad into its four octet values; `none` when the
string is not a valid IPv4 address in Node's grammar. -/
def parseIPv4 (s : List Char) : Option (Nat × Nat × Nat × Nat) :=
  match splitOnChar '.' s with
  | [a, b, c, d] =>
    if isV4Seg a && isV4Seg b && isV4Seg c && isV4Seg d then
      some (segVal a, segVal b, segVal c, segVal d)
    else none
  | _ => none

/-- Node `net.isIPv4`. -/
def isIPv4 (s : List Char) : Bool := (parseIPv4 s).isSome

/-! ### Node `net.isIP`: IPv6 -/

/-- A hex group of an IPv6 address: one to four hex digits. -/
def isHexQuad (g : List Char) : Bool :=
  !g.isEmpty && decide (g.length ≤ 4) && g.all isHexCh

/-- Check a colon-separated group list and count groups, an embedded final
IPv4 quad counting as two groups (`none` when some group is malformed or a
quad appears other than last). -/
def groupsOk : List (List Char) → Option Nat
  | [] => some 0
  | [g] => if isHexQuad g then some 1 else if isIPv4 g then some 2 else none
  | g :: gs => if isHexQuad g then (groupsOk gs).map (· + 1) else none

/-- The colon-separated groups of a (part of an) IPv6 address; the empty
string has no groups. -/
def splitGroups (s : List Char) : List (List Char) :=
  if s = [] then [] else splitOnChar ':' s

/-- The address part of Node's IPv6 grammar (no `%zone` suffix): either
exactly eight groups with no `::`, or one `::` with all left groups plain
hex quads and at most seven groups in total. -/
def ipv6Core (addr : List Char) : Bool :=
  match breakOnCC addr with
  | none => decide (groupsOk (splitGroups addr) = some 8)
  | some (l, r) =>
    match breakOnCC r with
    | some _ => false
    | none =>
      (splitGroups l).all isHexQuad &&
        (match groupsOk (splitGroups r) with
         | some n => decide ((splitGroups l).length + n ≤ 7)
         | none => false)

/-- Characters allowed in a `%zone` suffix, Node's `[0-9a-zA-Z-.:]`. -/
def isZoneChar (c : Char) : Bool :=
  isDigitCh c || (97 ≤ c.toNat && c.toNat ≤ 122) ||
    (65 ≤ c.toNat && c.toNat ≤ 90) || c = '-' || c = '.' || c = ':'

/-- Node `net.isIPv6`: address part plus an optional nonempty `%zone`. -/
def isIPv6 (s : List Char) : Bool :=
  match breakAtChar '%' s with
  | none => ipv6Core s
  | some (addr, zone) => ipv6Core addr && !zone.isEmpty && zone.all isZoneChar

/-- Truthiness of Node `net.isIP` (which returns 4, 6 or 0). -/
def isIP (s : List Char) : Bool := isIPv4 s || isIPv6 s

/-! ### `getClientIp` (from `src/utils/keyUtils.js`)

The inner helper `normalize` is embedded in its three sequential steps:
trim, then bracket/port stripping, then `::ffff:` unwrapping. -/

/-- Middle step of `normalize`: if the candidate is bracketed, keep the
characters between `[` and the first `]` (JavaScript `slice(1, end)`);
else if exactly one `:` occurs (`indexOf` finds one and a second search
finds none), drop it and everything after it. -/
def stripBracketsOrPort (ip : List Char) : List Char :=
  if startsWithL "[".data ip then
    match breakAtChar ']' (ip.drop 1) with
    | some (pre, _) => pre
    | none => ip
  else
    match breakAtChar ':' ip with
    | none => ip
    | some (pre, post) =>
      match breakAtChar ':' post with
      | some _ => ip
      | none => pre

/-- Last step of `normalize`: `replace('::ffff:', '')` on a string that
starts with `::ffff:` drops its first seven characters. -/
def unwrapFfff (ip : List Char) : List Char :=
  if startsWithL "::ffff:".data ip then ip.drop 7 else ip

def normalize (raw : List Char) : List Char :=
  if raw = [] then [] else unwrapFfff (stripBracketsOrPort (trimL raw))

/-- JavaScript `Number()` applied to one piece of `ip.split('.')`, as used
by `isPrivate` below.  On the strings that `isPrivate` is actually applied
to (the code only calls it on `net.isIP`-valid strings, whose dot-pieces
are either plain digit runs or contain `:`), `Number` yields the decimal
value on a (possibly empty) digit run and `NaN` otherwise; `NaN` is modelled
as `none` since every comparison with it is false. -/
def jsOctet? (g : List Char) : Option Nat :=
  if g.all isDigitCh then some (segVal g) else none

/-- The numeric-octet checks of `isPrivate`: `octets = ip.split('.')
.map(Number); octets.length === 4 && (172.16-31 range or 169.254)`.
Comparisons against the `NaN` of a non-numeric piece are false. -/
def octetRangeCheck (ip : List Char) : Bool :=
  match (splitOnChar '.' ip).map jsOctet? with
  | [some a, some b, _, _] =>
    decide ((a = 172 ∧ 16 ≤ b ∧ b ≤ 31) ∨ (a = 169 ∧ b = 254))
  | _ => false

/-- The inner helper `isPrivate` of `getClientIp`: the sequence of
early-`return true` checks, written as one disjunction. -/
def isPrivate (ip : List Char) : Bool :=
  decide (ip = []) ||
  decide (ip = "127.0.0.1".data) ||
  decide (ip = "::1".data) ||
  startsWithL "10.".data ip ||
  startsWithL "192.168.".data ip ||
  octetRangeCheck ip ||
  (let lower := ip.map lowerChar
   startsWithL "fc".data lower || startsWithL "fd".data lower ||
     startsWithL "fe80:".data lower)

/-- First loop of `pickFirstPublic`: the first candidate whose normal form
is a valid, non-private IP. -/
def firstPublic? : List (List Char) → Option (List Char)
  | [] => none
  | raw :: rest =>
    let ip := normalize raw
    if isIP ip && !isPrivate ip then some ip else firstPublic? rest

/-- Second loop of `pickFirstPublic` (also the `firstValid` computation in
`getClientIp` and `privateIp` in `getIpVariants`): the first candidate
whose normal form is a valid IP, private or not. -/
def firstValid? : List (List Char) → Option (List Char)
  | [] => none
  | raw :: rest =>
    let ip := normalize raw
    if isIP ip then some ip else firstValid? rest

/-- The inner helper `pickFirstPublic`: first public candidate, else first
valid candidate, else the empty string. -/
def pickFirstPublic (list : List (List Char)) : List Char :=
  match firstPublic? list with
  | some ip => ip
  | none =>
    match firstValid? list with
    | some ip => ip
    | none => []

/-- Nonempty and not starting with `;`: the `[^;]+` part of the regex
`/for=([^;]+)/i` can match at this position. -/
def headNotSemi : List Char → Bool
  | [] => false
  | d :: _ => d != ';'

/-- First match of the regex `/for=([^;]+)/i` on a part of the `Forwarded`
header: scan left to right for a case-insensitive `for=` followed by at
least one non-`;` character; the capture runs to the first `;` or the end. -/
def forCapture : List Char → Option (List Char)
  | [] => none
  | c :: cs =>
    match cs with
    | o :: r :: '=' :: rest =>
      if (lowerChar c == 'f') && (lowerChar o == 'o') && (lowerChar r == 'r')
          && headNotSemi rest then
        some (rest.takeWhile (fun d => d != ';'))
      else forCapture cs
    | _ => forCapture cs

/-- An embedded request: the headers `getClientIp` reads (absent headers
are `none`; JavaScript only uses header values that are strings) and the
Express/Node-derived peer addresses. -/
structure Req where
  forwarded : Option (List Char) := none
  cfConnectingIp : Option (List Char) := none
  trueClientIp : Option (List Char) := none
  xRealIp : Option (List Char) := none
  xClientIp : Option (List Char) := none
  fastlyClientIp : Option (List Char) := none
  xClusterClientIp : Option (List Char) := none
  flyClientIp : Option (List Char) := none
  xForwardedFor : Option (List Char) := none
  ip : Option (List Char) := none
  connectionRemoteAddress : Option (List Char) := none
  socketRemoteAddress : Option (List Char) := none
  connectionSocketRemoteAddress : Option (List Char) := none

/-- Candidates from the `Forwarded` header: split on `,`, extract each
`for=` value, strip double quotes.  The header is skipped when absent or
empty (JavaScript `if (fwd && typeof fwd === 'string')`). -/
def forwardedCandidates (req : Req) : List (List Char) :=
  match req.forwarded with
  | none => []
  | some fwd =>
    if fwd = [] then []
    else (splitOnChar ',' fwd).filterMap
      (fun p => (forCapture p).map (List.filter (fun c => c ≠ '"')))

/-- Candidates from the fixed list of single-value vendor headers, in
source order; present values are pushed even when empty. -/
def directCandidates (req : Req) : List (List Char) :=
  [req.cfConnectingIp, req.trueClientIp, req.xRealIp, req.xClientIp,
    req.fastlyClientIp, req.xClusterClientIp, req.flyClientIp].filterMap id

/-- Candidates from `X-Forwarded-For`: split on `,`, trim each entry, drop
empties (`filter(Boolean)`); the header is skipped when absent or empty. -/
def xffCandidates (req : Req) : List (List Char) :=
  match req.xForwardedFor with
  | none => []
  | some xff =>
    if xff = [] then []
    else ((splitOnChar ',' xff).map trimL).filter (fun s => !s.isEmpty)

/-- Candidates from the Express/Node-derived peer addresses, with
`filter(Boolean)` dropping absent and empty values. -/
def fallbackCandidates (req : Req) : List (List Char) :=
  ([req.ip, req.connectionRemoteAddress, req.socketRemoteAddress,
    req.connectionSocketRemoteAddress].filterMap id).filter (fun s => !s.isEmpty)

/-- The full candidate list of `getClientIp`, in push order. -/
def collectCandidates (req : Req) : List (List Char) :=
  forwardedCandidates req ++ directCandidates req ++ xffCandidates req ++
    fallbackCandidates req

/-- JavaScript `a || b` on strings (empty string is falsy). -/
def orElseStr (a b : List Char) : List Char := if a = [] then b else a

/-- `getClientIp(req)` from `src/utils/keyUtils.js`; `ipPreference` embeds
`require('../config').ipPreference`. -/
def getClientIp (ipPreference : List Char) (req : Req) : List Char :=
  let candidates := collectCandidates req
  let bestPublic := pickFirstPublic candidates
  let firstValid :=
    match firstValid? candidates with
    | some ip => ip
    | none => []
  let chosen :=
    if ipPreference = "private".data then orElseStr firstValid bestPublic
    else orElseStr bestPublic firstValid
  orElseStr chosen "unknown".data

/-! ### `getIpVariants` (from `src/utils/keyUtils.js`)

`getIpVariants` re-implements `normalize`, `isPrivate`, `pickFirstPublic`
and the candidate collection inline, with the same logic; the embeddings
below mirror that duplication (`…V` versions). -/

/-- The `normalize` helper redeclared inside `getIpVariants` (same text as
`normalize`). -/
def normalizeV (raw : List Char) : List Char :=
  if raw = [] then [] else unwrapFfff (stripBracketsOrPort (trimL raw))

/-- The `isPrivate` helper redeclared inside `getIpVariants` (same checks
as `isPrivate`). -/
def isPrivateV (ip : List Char) : Bool :=
  decide (ip = []) ||
  decide (ip = "127.0.0.1".data) ||
  decide (ip = "::1".data) ||
  startsWithL "10.".data ip ||
  startsWithL "192.168.".data ip ||
  octetRangeCheck ip ||
  (let low := ip.map lowerChar
   startsWithL "fc".data low || startsWithL "fd".data low ||
     startsWithL "fe80:".data low)

/-- First loop of the `pickFirstPublic` redeclared inside `getIpVariants`. -/
def firstPublicV? : List (List Char) → Option (List Char)
  | [] => none
  | raw :: rest =>
    let ip := normalizeV raw
    if isIP ip && !isPrivateV ip then some ip else firstPublicV? rest

/-- The `privateIp` loop of `getIpVariants` (first valid candidate). -/
def firstValidV? : List (List Char) → Option (List Char)
  | [] => none
  | raw :: rest =>
    let ip := normalizeV raw
    if isIP ip then some ip else firstValidV? rest

/-- The `pickFirstPublic` redeclared inside `getIpVariants`. -/
def pickFirstPublicV (list : List (List Char)) : List Char :=
  match firstPublicV? list with
  | some ip => ip
  | none =>
    match firstValidV? list with
    | some ip => ip
    | none => []

/-- The candidate collection of `getIpVariants` (same sources, same order
as in `getClientIp`). -/
def collectCandidatesV (req : Req) : List (List Char) :=
  (match req.forwarded with
   | none => []
   | some fwd =>
     if fwd = [] then []
     else (splitOnChar ',' fwd).filterMap
       (fun p => (forCapture p).map (List.filter (fun c => c ≠ '"')))) ++
  ([req.cfConnectingIp, req.trueClientIp, req.xRealIp, req.xClientIp,
     req.fastlyClientIp, req.xClusterClientIp, req.flyClientIp].filterMap id) ++
  (match req.xForwardedFor with
   | none => []
   | some xff =>
     if xff = [] then []
     else ((splitOnChar ',' xff).map trimL).filter (fun s => !s.isEmpty)) ++
  (([req.ip, req.connectionRemoteAddress, req.socketRemoteAddress,
      req.connectionSocketRemoteAddress].filterMap id).filter
    (fun s => !s.isEmpty))

/-- `getIpVariants(req)`: `publicIp` is `pickFirstPublic(candidates) || null`
and `privateIp` is the first valid candidate or `null`. -/
def getIpVariants (req : Req) : Option (List Char) × Option (List Char) :=
  let candidates := collectCandidatesV req
  let publicIp :=
    let p := pickFirstPublicV candidates
    if p = [] then none else some p
  let privateIp := firstValidV? candidates
  (publicIp, privateIp)

/-! ### Access-key store

`getExpirationDate` and `isKeyValid` are embedded from
`src/utils/keyUtils.js`.  The surrounding `create`/`validate` operations
(route handlers and the database service) are not among the provided
sources, so they are modelled from the spec (§4.1) on top of the two
embedded helpers.  Timestamps are rationals (epoch milliseconds); the
source compares ISO-8601 strings, whose lexicographic order on the fixed
`toISOString` format agrees with chronological order. -/

/-- The `status` column of a key record (spec §3: enum {active, revoked};
the source stores the strings `'active'`/`'revoked'`). -/
inductive KeyStatus where
  | active
  | revoked
deriving DecidableEq, Repr

/-- An access-key record (`id`, `user_id`, `status`, `created_at`,
`expires_at`). -/
structure AccessKey where
  id : String
  userId : String
  status : KeyStatus
  createdAt : ℚ
  expiresAt : ℚ
deriving DecidableEq, Repr

/-- `getExpirationDate(hours)` from `src/utils/keyUtils.js`: throws unless
`hours` is a positive number, else returns now plus `hours` hours.  The
`typeof hours !== 'number'` guard is vacuous in this typed embedding; JS
`setHours` truncates a fractional argument (`⌊·⌋` for positive `hours`)
and rolls extra hours over into days; time-zone DST jumps are out of
scope. -/
def getExpirationDate (now : ℚ) (hours : ℚ) : Except String ℚ :=
  if hours ≤ 0 then .error "Hours must be a positive number"
  else .ok (now + ⌊hours⌋ * 3600000)

/-- `isKeyValid(key)` from `src/utils/keyUtils.js`: false for a missing
record, else `status === 'active' && expires_at > now`. -/
def isKeyValid (key : Option AccessKey) (now : ℚ) : Bool :=
  match key with
  | none => false
  | some k => k.status = KeyStatus.active && now < k.expiresAt

/-- The persisted key records, in insertion order (spec §3/§6: a generic
record store fetched by exact id). -/
abbrev KeyStore := List AccessKey

/-- Result of the `create` operation. -/
inductive CreateResult where
  | created (key : AccessKey)
  | invalidParameter
deriving DecidableEq, Repr

/-- Modelled from the spec: the `create(ownerId, ttlHours)` operation of
the Access Key Store (§4.1); its route/controller is not among the
provided sources.  It fails with `InvalidParameter` when `ttlHours`
exceeds the configured maximum `MAX_KEY_HOURS` or when the embedded
`getExpirationDate` rejects it (not a positive number), and otherwise
persists a fresh record with `status = active`, `createdAt = now` and the
computed expiry. -/
def create (maxKeyHours : ℚ) (now : ℚ) (store : KeyStore)
    (newId ownerId : String) (ttlHours : ℚ) : KeyStore × CreateResult :=
  if maxKeyHours < ttlHours then (store, .invalidParameter)
  else
    match getExpirationDate now ttlHours with
    | .error _ => (store, .invalidParameter)
    | .ok expiry =>
      let key : AccessKey := ⟨newId, ownerId, .active, now, expiry⟩
      (store ++ [key], .created key)

/-- Outcome of the `validate` operation. -/
inductive ValidateOutcome where
  | Valid
  | Expired
  | Revoked
  | NotFound
deriving DecidableEq, Repr

/-- Modelled from the spec: the `validate(id)` operation of the Access Key
Store (§4.1); its route/controller is not among the provided sources.
Pure read: fetch the record by exact id; absent → `NotFound`; `status =
revoked` → `Revoked`; else `expiresAt ≤ now` → `Expired`; else `Valid`. -/
def validate (store : KeyStore) (now : ℚ) (id : String) : ValidateOutcome :=
  match store.find? (fun k => k.id = id) with
  | none => .NotFound
  | some k =>
    if k.status = .revoked then .Revoked
    else if k.expiresAt ≤ now then .Expired
    else .Valid

/-! ### Admin session store (from `src/middleware/adminAuth.js`)

The module-level `sessions` `Map` is embedded as an association list in
insertion order (a JavaScript `Map` iterates in insertion order). -/

/-- A stored admin session (`id` = the session token, `createdAt`,
audit `ip` and `userAgent`). -/
structure AdminSession where
  id : String
  createdAt : ℚ
  ip : String
  userAgent : String
deriving DecidableEq, Repr

/-- The `sessions` map: token ↦ session data, in insertion order. -/
abbrev SessionStore := List (String × AdminSession)

/-- `sessions.get(token)`. -/
def mapGet (m : SessionStore) (token : String) : Option AdminSession :=
  (m.find? (fun p => p.1 = token)).map (fun p => p.2)

/-- `sessions.delete(token)`. -/
def mapDelete (m : SessionStore) (token : String) : SessionStore :=
  m.filter (fun p => p.1 ≠ token)

/-- Outcome of `requireAuth`, mapping the source's three 401 responses to
the spec's taxonomy: missing token and unknown token → `Unauthenticated`
(`'Authentication required'` / `'Invalid or expired session'`); over-age
token → `Expired` (`'Session expired'`); otherwise the session record is
attached to the request. -/
inductive AuthOutcome where
  | Unauthenticated
  | Expired
  | Authed (s : AdminSession)
deriving DecidableEq, Repr

/-- Fixed session TTL: 24 hours in milliseconds (`24 * 60 * 60 * 1000`). -/
def sessionTTL : ℚ := 24 * 60 * 60 * 1000

/-- `requireAuth` from `src/middleware/adminAuth.js`.  `token` is the
already-extracted cookie/header value (`none` when absent; the source also
treats an empty string as missing, via JS falsiness).  Returns the updated
store — the source deletes the record when the session age strictly
exceeds the TTL — together with the outcome. -/
def requireAuth (sessions : SessionStore) (now : ℚ) (token : Option String) :
    SessionStore × AuthOutcome :=
  match token with
  | none => (sessions, .Unauthenticated)
  | some t =>
    if t = "" then (sessions, .Unauthenticated)
    else
      match mapGet sessions t with
      | none => (sessions, .Unauthenticated)
      | some s =>
        if sessionTTL < now - s.createdAt then (mapDelete sessions t, .Expired)
        else (sessions, .Authed s)

/-- `logout` from `src/middleware/adminAuth.js`: delete the session when a
token cookie is present (and truthy), and report success unconditionally. -/
def logout (sessions : SessionStore) (token : Option String) :
    SessionStore × Bool :=
  match token with
  | none => (sessions, true)
  | some t =>
    if t = "" then (sessions, true)
    else (mapDelete sessions t, true)

/-- `getActiveSessions` from `src/middleware/adminAuth.js`:
`Array.from(sessions.values())` snapshots. -/
def listSessions (sessions : SessionStore) : List AdminSession :=
  sessions.map (fun p => p.2)

/-! ### Statement-only definitions for claim C5

`claimC5Private` renders claim C5's classification exactly as stated
(CIDR-range semantics); `amendedC5Private` is the amended classification
actually implemented (textual prefixes for the IPv6 ranges). -/

/-- Hex value of a hex-digit character (used on characters accepted by
`isHexCh`). -/
def hexDigitVal (c : Char) : Nat :=
  if 48 ≤ c.toNat ∧ c.toNat ≤ 57 then c.toNat - 48
  else if 97 ≤ c.toNat then c.toNat - 87
  else c.toNat - 55

/-- Value of a 1-4 digit hex group, `none` when not a hex group. -/
def hexGroupVal (g : List Char) : Option Nat :=
  if isHexQuad g then some (g.foldl (fun a c => a * 16 + hexDigitVal c) 0)
  else none

/-- Value of the first 16-bit group of an IPv6 address literal: 0 when the
literal starts with `::` (compressed leading zero groups), else the value
of the text before the first `:`. -/
def ipv6FirstGroup (s : List Char) : Option Nat :=
  if startsWithL "::".data s then some 0
  else hexGroupVal (s.takeWhile (fun c => c ≠ ':'))

/-- Claim C5's classification as stated: loopback (`127.0.0.1`, `::1`);
IPv4 in `10.0.0.0/8`, `172.16.0.0/12`, `192.168.0.0/16`, `169.254.0.0/16`;
IPv6 in `fc00::/7` (first group `fc00`-`fdff`) or `fe80::/10` (first group
`fe80`-`febf`). -/
def claimC5Private (ip : List Char) : Bool :=
  decide (ip = "127.0.0.1".data) ||
  decide (ip = "::1".data) ||
  (match parseIPv4 ip with
   | some (a, b, _, _) =>
     decide (a = 10 ∨ (a = 172 ∧ 16 ≤ b ∧ b ≤ 31) ∨ (a = 192 ∧ b = 168) ∨
       (a = 169 ∧ b = 254))
   | none => false) ||
  (isIPv6 ip &&
    (match ipv6FirstGroup ip with
     | some g => decide ((64512 ≤ g ∧ g ≤ 65023) ∨ (65152 ≤ g ∧ g ≤ 65215))
     | none => false))

/-- The amended classification: same loopback literals and IPv4 ranges,
but the IPv6 side is textual — lowercased text beginning with `fc`, `fd`
or `fe80:` — matching the implementation's quick checks. -/
def amendedC5Private (ip : List Char) : Bool :=
  decide (ip = "127.0.0.1".data) ||
  decide (ip = "::1".data) ||
  (match parseIPv4 ip with
   | some (a, b, _, _) =>
     decide (a = 10 ∨ (a = 172 ∧ 16 ≤ b ∧ b ≤ 31) ∨ (a = 192 ∧ b = 168) ∨
       (a = 169 ∧ b = 254))
   | none => false) ||
  (let low := ip.map lowerChar
   startsWithL "fc".data low || startsWithL "fd".data low ||
     startsWithL "fe80:".data low)

/-- The test of the first loop of `pickFirstPublic`: the candidate
normalizes to a valid public IP. -/
def validPublicCand (raw : List Char) : Bool :=
  isIP (normalize raw) && !isPrivate (normalize raw)

/-- The test of the second loop: the candidate normalizes to a valid IP. -/
def validCand (raw : List Char) : Bool := isIP (normalize raw)

/-- A concrete request for the C10 witness. -/
def xffReq : Req := { xForwardedFor := some "203.0.113.5, 10.0.0.1".data }

/-! ### Basic lemmas: characters and generic list helpers -/

theorem charToNatInj {c d : Char} (h : c.toNat = d.toNat) : c = d :=
  Char.ext (UInt32.ext h)

theorem startsWithL_iff (p s : List Char) :
    startsWithL p s = true ↔ ∃ t, s = p ++ t := by
  induction p generalizing s with
  | nil => simp [startsWithL]
  | cons x ps ih =>
    cases s with
    | nil =>
      simp only [startsWithL, List.cons_append]
      constructor
      · intro h; cases h
      · rintro ⟨t, h⟩; cases h
    | cons c cs =>
      simp only [startsWithL, Bool.and_eq_true, beq_iff_eq, ih,
        List.cons_append]
      constructor
      · rintro ⟨rfl, t, rfl⟩; exact ⟨t, rfl⟩
      · rintro ⟨t, h⟩
        injection h with h1 h2
        exact ⟨h1.symm, t, h2⟩

theorem splitOnChar_ne_nil (sep : Char) (s : List Char) :
    splitOnChar sep s ≠ [] := by
  cases s with
  | nil => simp [splitOnChar]
  | cons c cs =>
    simp only [splitOnChar]
    rcases h : splitOnChar sep cs with _ | ⟨g, gs⟩
    · simp
    · by_cases hc : c = sep <;> simp [hc]

/-- One unfolding step of `splitOnChar` when the tail's split is known. -/
theorem splitOnChar_cons (sep c : Char) (cs g : List Char)
    (gs : List (List Char)) (h : splitOnChar sep cs = g :: gs) :
    splitOnChar sep (c :: cs) =
      if c = sep then [] :: g :: gs else (c :: g) :: gs := by
  simp only [splitOnChar, h]

theorem splitOnChar_join (sep : Char) (s : List Char) :
    joinSep sep (splitOnChar sep s) = s := by
  induction s with
  | nil => simp [splitOnChar, joinSep]
  | cons c cs ih =>
    rcases h : splitOnChar sep cs with _ | ⟨g, gs⟩
    · exact absurd h (splitOnChar_ne_nil sep cs)
    · rw [h] at ih
      rw [splitOnChar_cons sep c cs g gs h]
      by_cases hc : c = sep
      · subst hc
        rw [if_pos rfl]
        cases gs <;> simp [joinSep] at ih ⊢ <;> simp [ih]
      · rw [if_neg hc]
        cases gs <;> simp [joinSep] at ih ⊢ <;> simp [ih]

/-- `splitOnChar` on a string starting with a separator-free run `p`:
the first group starts with `p`. -/
theorem splitOnChar_append (sep : Char) (p t : List Char)
    (hp : ∀ c ∈ p, c ≠ sep) :
    ∃ g gs, splitOnChar sep (p ++ t) = (p ++ g) :: gs ∧
      splitOnChar sep t = g :: gs := by
  induction p with
  | nil =>
    rcases h : splitOnChar sep t with _ | ⟨g, gs⟩
    · exact absurd h (splitOnChar_ne_nil sep t)
    · exact ⟨g, gs, by simpa using h, rfl⟩
  | cons c p' ih =>
    have hc : c ≠ sep := hp c (by simp)
    obtain ⟨g, gs, h1, h2⟩ := ih (fun x hx => hp x (by simp [hx]))
    refine ⟨g, gs, ?_, h2⟩
    rw [List.cons_append, splitOnChar_cons sep c _ _ _ h1, if_neg hc]
    simp

theorem breakAtChar_eq_none {ch : Char} {s : List Char}
    (h : ∀ c ∈ s, c ≠ ch) : breakAtChar ch s = none := by
  induction s with
  | nil => rfl
  | cons c cs ih =>
    simp only [breakAtChar, if_neg (h c (by simp))]
    rw [ih (fun x hx => h x (by simp [hx]))]
    rfl

/-- One unfolding step of `breakAtChar` at a non-matching character. -/
theorem breakAtChar_cons_ne (ch c : Char) (cs : List Char) (hc : c ≠ ch) :
    breakAtChar ch (c :: cs) =
      (breakAtChar ch cs).map (fun p => (c :: p.1, p.2)) := by
  simp [breakAtChar, hc]

theorem breakAtChar_some {ch : Char} {s q r : List Char}
    (h : breakAtChar ch s = some (q, r)) :
    s = q ++ ch :: r ∧ ∀ c ∈ q, c ≠ ch := by
  induction s generalizing q r with
  | nil => cases h
  | cons c cs ih =>
    by_cases hc : c = ch
    · subst hc
      simp only [breakAtChar, if_pos rfl] at h
      injection h with h'
      injection h' with h1 h2
      subst h2
      simp [← h1]
    · rw [breakAtChar_cons_ne ch c cs hc] at h
      rcases hb : breakAtChar ch cs with _ | ⟨q', r'⟩
      · rw [hb] at h; cases h
      · rw [hb] at h
        injection h with h'
        obtain ⟨h1, h2⟩ := ih hb
        cases h'
        refine ⟨by simp [h1], ?_⟩
        intro x hx
        rcases List.mem_cons.mp hx with rfl | hx
        · exact hc
        · exact h2 x hx

/-- `breakAtChar` skips over a `ch`-free run. -/
theorem breakAtChar_append (ch : Char) (p t : List Char)
    (hp : ∀ c ∈ p, c ≠ ch) :
    breakAtChar ch (p ++ t) =
      (breakAtChar ch t).map (fun q => (p ++ q.1, q.2)) := by
  induction p with
  | nil =>
    rcases h : breakAtChar ch t with _ | ⟨q, r⟩ <;> simp [h]
  | cons c p' ih =>
    rw [List.cons_append, breakAtChar_cons_ne ch c _ (hp c (by simp)),
      ih (fun x hx => hp x (by simp [hx]))]
    rcases breakAtChar ch t with _ | ⟨q, r⟩ <;> simp

/-- One unfolding step of `breakOnCC` at a non-colon character. -/
theorem breakOnCC_cons (c : Char) (cs : List Char) (hc : c ≠ ':') :
    breakOnCC (c :: cs) = (breakOnCC cs).map (fun q => (c :: q.1, q.2)) := by
  rw [breakOnCC.eq_def]
  split
  · rename_i heq
    injection heq with h1 _
    exact absurd h1 hc
  · rename_i hguard heq
    injection heq with h1 h2
    subst h1; subst h2
    rfl
  · rename_i heq
    cases heq

/-- `breakOnCC` skips over a colon-free run. -/
theorem breakOnCC_append (p t : List Char) (hp : ∀ c ∈ p, c ≠ ':') :
    breakOnCC (p ++ t) = (breakOnCC t).map (fun q => (p ++ q.1, q.2)) := by
  induction p with
  | nil =>
    rcases h : breakOnCC t with _ | ⟨q, r⟩ <;> simp [h]
  | cons c p' ih =>
    rw [List.cons_append, breakOnCC_cons c _ (hp c (by simp)),
      ih (fun x hx => hp x (by simp [hx]))]
    rcases breakOnCC t with _ | ⟨q, r⟩ <;> simp

/-! ### Trimming lemmas -/

theorem dropWhile_all_false {α : Type} {p : α → Bool} {l : List α}
    (h : ∀ c ∈ l, p c = false) : l.dropWhile p = l := by
  cases l with
  | nil => rfl
  | cons c cs => simp [List.dropWhile_cons, h c (by simp)]

theorem trimL_all_nonspace {s : List Char}
    (h : ∀ c ∈ s, isSpaceCh c = false) : trimL s = s := by
  unfold trimL trimLeftL trimRightL
  rw [dropWhile_all_false h, dropWhile_all_false (by simpa using h)]
  simp

/-- A list is its trailing-drop plus a dropped tail. -/
theorem dropWhile_decomp {α : Type} (p : α → Bool) (l : List α) :
    ∃ w, l = w ++ l.dropWhile p := by
  induction l with
  | nil => exact ⟨[], rfl⟩
  | cons c cs ih =>
    by_cases hc : p c = true
    · obtain ⟨w, hw⟩ := ih
      exact ⟨c :: w, by simp [List.dropWhile_cons, hc]; exact hw⟩
    · exact ⟨[], by simp [List.dropWhile_cons, hc]⟩

theorem trimRightL_decomp (u : List Char) : ∃ t, u = trimRightL u ++ t := by
  obtain ⟨w, hw⟩ := dropWhile_decomp isSpaceCh u.reverse
  refine ⟨w.reverse, ?_⟩
  have := congrArg List.reverse hw
  simpa [trimRightL] using this

theorem trimL_idem (s : List Char) : trimL (trimL s) = trimL s := by
  set p := isSpaceCh
  set u := trimLeftL s with hu
  have hdw : u.dropWhile p = u := by
    simpa [hu, trimLeftL] using List.dropWhile_idempotent p s
  have step3 : trimLeftL (trimRightL u) = trimRightL u := by
    rcases h : trimRightL u with _ | ⟨c, cs⟩
    · rfl
    · obtain ⟨t, ht⟩ := trimRightL_decomp u
      rw [h] at ht
      have hpc : p c = false := by
        by_contra hfalse
        have hpc' : p c = true := by revert hfalse; cases p c <;> simp
        have : u.dropWhile p = (cs ++ t).dropWhile p := by
          rw [ht, List.cons_append, List.dropWhile_cons, if_pos hpc']
        have hlen : u.length ≤ (cs ++ t).length := by
          rw [← hdw, this]
          exact (List.dropWhile_sublist p).length_le
        rw [ht] at hlen
        simp at hlen
      show (c :: cs).dropWhile p = c :: cs
      rw [List.dropWhile_cons, if_neg (by simp [hpc])]
  have step4 : trimRightL (trimRightL u) = trimRightL u := by
    unfold trimRightL
    rw [List.reverse_reverse, List.dropWhile_idempotent]
  show trimRightL (trimLeftL (trimRightL u)) = trimRightL u
  rw [step3, step4]

theorem normalize_trimL (s : List Char) : normalize s = normalize (trimL s) := by
  by_cases hs : s = []
  · subst hs; rfl
  · by_cases ht : trimL s = []
    · rw [normalize, if_neg hs, ht, normalize, if_pos rfl]
      rfl
    · rw [normalize, if_neg hs, normalize, if_neg ht, trimL_idem]

/-! ### Candidate-scanning lemmas -/

theorem firstPublic?_cons (raw : List Char) (rest : List (List Char)) :
    firstPublic? (raw :: rest) =
      if validPublicCand raw then some (normalize raw)
      else firstPublic? rest := by
  simp [firstPublic?, validPublicCand]

theorem firstValid?_cons (raw : List Char) (rest : List (List Char)) :
    firstValid? (raw :: rest) =
      if validCand raw then some (normalize raw) else firstValid? rest := by
  simp [firstValid?, validCand]

theorem firstPublic?_eq_none {A : List (List Char)}
    (h : ∀ x ∈ A, validPublicCand x = false) : firstPublic? A = none := by
  induction A with
  | nil => rfl
  | cons a A ih =>
    rw [firstPublic?_cons, if_neg (by simp [h a (by simp)])]
    exact ih (fun x hx => h x (by simp [hx]))

theorem firstPublic?_append (A B : List (List Char)) :
    firstPublic? (A ++ B) =
      (firstPublic? A).orElse (fun _ => firstPublic? B) := by
  induction A with
  | nil => simp [firstPublic?]
  | cons a A ih =>
    rw [List.cons_append, firstPublic?_cons, firstPublic?_cons]
    by_cases h : validPublicCand a = true
    · simp [h]
    · simp only [Bool.not_eq_true] at h
      simp [h, ih]

theorem firstValid?_append (A B : List (List Char)) :
    firstValid? (A ++ B) =
      (firstValid? A).orElse (fun _ => firstValid? B) := by
  induction A with
  | nil => simp [firstValid?]
  | cons a A ih =>
    rw [List.cons_append, firstValid?_cons, firstValid?_cons]
    by_cases h : validCand a = true
    · simp [h]
    · simp only [Bool.not_eq_true] at h
      simp [h, ih]

theorem firstPublic?_isIP {l : List (List Char)} {v : List Char}
    (h : firstPublic? l = some v) : isIP v = true ∧ isPrivate v = false := by
  induction l with
  | nil => cases h
  | cons a l ih =>
    rw [firstPublic?_cons] at h
    by_cases ha : validPublicCand a = true
    · rw [if_pos ha] at h
      injection h with h'
      subst h'
      simpa [validPublicCand] using ha
    · rw [if_neg ha] at h
      exact ih h

theorem firstValid?_isIP {l : List (List Char)} {v : List Char}
    (h : firstValid? l = some v) : isIP v = true := by
  induction l with
  | nil => cases h
  | cons a l ih =>
    rw [firstValid?_cons] at h
    by_cases ha : validCand a = true
    · rw [if_pos ha] at h
      injection h with h'
      subst h'
      simpa [validCand] using ha
    · rw [if_neg ha] at h
      exact ih h

theorem isIP_nil : isIP [] = false := rfl

theorem firstPublic?_ne_nil {l : List (List Char)} {v : List Char}
    (h : firstPublic? l = some v) : v ≠ [] := by
  intro hv
  subst hv
  exact absurd (firstPublic?_isIP h).1 (by simp [isIP_nil])

theorem firstValid?_ne_nil {l : List (List Char)} {v : List Char}
    (h : firstValid? l = some v) : v ≠ [] := by
  intro hv
  subst hv
  exact absurd (firstValid?_isIP h) (by simp [isIP_nil])

/-! ### Session-store lemmas -/

theorem mapGet_delete (m : SessionStore) (t : String) :
    mapGet (mapDelete m t) t = none := by
  have : (mapDelete m t).find? (fun p => p.1 = t) = none := by
    rw [List.find?_eq_none]
    intro x hx
    have := (List.mem_filter.mp hx).2
    simpa using this
  simp [mapGet, this]

theorem find?_append_right {α : Type} {p : α → Bool} {l1 l2 : List α}
    (h : ∀ x ∈ l1, p x = false) : (l1 ++ l2).find? p = l2.find? p := by
  induction l1 with
  | nil => rfl
  | cons a l1 ih =>
    rw [List.cons_append, List.find?_cons, h a (by simp)]
    exact ih (fun x hx => h x (by simp [hx]))

/-! ### Claims C1-C4 and C9: key store and session store -/

/-- Claim C1: `create(ownerId, ttlHours)` fails with `InvalidParameter`
whenever `ttlHours ≤ 0` (not a positive number) or
`ttlHours > MAX_KEY_HOURS`; the input is rejected, not clamped, and the
store is unchanged (nothing is persisted). -/
theorem C1_create_rejects_bad_ttl (maxKeyHours now : ℚ) (store : KeyStore)
    (newId ownerId : String) (ttlHours : ℚ)
    (h : ttlHours ≤ 0 ∨ maxKeyHours < ttlHours) :
    create maxKeyHours now store newId ownerId ttlHours =
      (store, .invalidParameter) := by
  rcases h with h | h
  · by_cases hmax : maxKeyHours < ttlHours
    · simp [create, hmax]
    · simp [create, hmax, getExpirationDate, h]
  · simp [create, h]

theorem C1_create_rejects_bad_ttl_witness :
    create 720 0 [] "k" "u" (-1) = ([], .invalidParameter) ∧
      create 720 0 [] "k" "u" 721 = ([], .invalidParameter) :=
  ⟨C1_create_rejects_bad_ttl 720 0 [] "k" "u" (-1) (Or.inl (by norm_num)),
    C1_create_rejects_bad_ttl 720 0 [] "k" "u" 721 (Or.inr (by norm_num))⟩

/-- Claim C2: for every key record that is revoked and whose `expiresAt`
is at or before the clock, `validate` reports `Revoked`, not `Expired`:
revocation takes precedence over time-derived expiry. -/
theorem C2_revoked_precedes_expired (store : KeyStore) (now : ℚ)
    (id : String) (k : AccessKey)
    (hfind : store.find? (fun k => k.id = id) = some k)
    (hrev : k.status = .revoked) (hexp : k.expiresAt ≤ now) :
    validate store now id = .Revoked := by
  simp [validate, hfind, hrev]

theorem C2_revoked_precedes_expired_witness :
    validate [⟨"a", "u", .revoked, 0, 5⟩] 10 "a" = .Revoked :=
  C2_revoked_precedes_expired [⟨"a", "u", .revoked, 0, 5⟩] 10 "a"
    ⟨"a", "u", .revoked, 0, 5⟩ (by simp [List.find?]) rfl (by norm_num)

/-- Claim C3: for every stored session whose age `now - createdAt`
strictly exceeds the fixed 24-hour TTL, `requireAuth(token)` removes the
record from the store and returns `Expired`, and a subsequent
`listSessions()` no longer includes that token. -/
theorem C3_requireAuth_evicts_expired (sessions : SessionStore) (now : ℚ)
    (t : String) (s : AdminSession)
    (hwf : ∀ p ∈ sessions, p.2.id = p.1)
    (ht : t ≠ "")
    (hget : mapGet sessions t = some s)
    (hage : sessionTTL < now - s.createdAt) :
    requireAuth sessions now (some t) = (mapDelete sessions t, .Expired) ∧
      mapGet (mapDelete sessions t) t = none ∧
      ∀ s' ∈ listSessions (mapDelete sessions t), s'.id ≠ t := by
  refine ⟨by simp [requireAuth, ht, hget, hage], mapGet_delete sessions t, ?_⟩
  intro s' hs'
  obtain ⟨p, hp, hp2⟩ := List.mem_map.mp hs'
  have hmem := List.mem_filter.mp hp
  have hne : p.1 ≠ t := by simpa using hmem.2
  rw [← hp2, hwf p hmem.1]
  exact hne

theorem C3_requireAuth_evicts_expired_witness :
    requireAuth [("t", ⟨"t", 0, "i", "ua"⟩)] 86400001 (some "t") =
        ([], .Expired) ∧
      mapGet (mapDelete [("t", ⟨"t", 0, "i", "ua"⟩)] "t") "t" = none ∧
      ∀ s' ∈ listSessions (mapDelete [("t", ⟨"t", 0, "i", "ua"⟩)] "t"),
        s'.id ≠ "t" := by
  have h := C3_requireAuth_evicts_expired [("t", ⟨"t", 0, "i", "ua"⟩)]
    86400001 "t" ⟨"t", 0, "i", "ua"⟩ (by simp) (by simp)
    (by simp [mapGet, List.find?]) (by norm_num [sessionTTL])
  refine ⟨?_, h.2.1, h.2.2⟩
  rw [h.1]
  simp [mapDelete]

/-- Claim C9: `logout(token)` reports success for every token, including
an unknown or already-removed one, and a subsequent `requireAuth(token)`
yields `Unauthenticated`. -/
theorem C9_logout_success_then_unauthenticated (sessions : SessionStore)
    (token : Option String) (now : ℚ) :
    (logout sessions token).2 = true ∧
      (requireAuth (logout sessions token).1 now token).2 =
        .Unauthenticated := by
  rcases token with _ | t
  · simp [logout, requireAuth]
  · by_cases ht : t = ""
    · simp [logout, requireAuth, ht]
    · simp [logout, requireAuth, ht, mapGet_delete]

/-- Claim C4: `validate` reports `Valid` exactly when the record exists
with `status = active` and `expiresAt` strictly later than the clock
(equivalently, exactly when the source's `isKeyValid` accepts the fetched
record); consequently `create` with `ttlHours ∈ [1, MAX_KEY_HOURS]`
followed by an immediate `validate` of the fresh id yields `Valid`. -/
theorem C4_valid_iff_active_unexpired :
    (∀ (store : KeyStore) (now : ℚ) (id : String),
      (validate store now id = .Valid ↔
        ∃ k, store.find? (fun k => k.id = id) = some k ∧
          k.status = .active ∧ now < k.expiresAt) ∧
      (validate store now id = .Valid ↔
        isKeyValid (store.find? (fun k => k.id = id)) now = true)) ∧
    (∀ (maxKeyHours now : ℚ) (store : KeyStore) (newId ownerId : String)
      (ttlHours : ℚ), 1 ≤ ttlHours → ttlHours ≤ maxKeyHours →
      (∀ k ∈ store, k.id ≠ newId) →
      validate (create maxKeyHours now store newId ownerId ttlHours).1 now
        newId = .Valid) := by
  constructor
  · intro store now id
    rcases hfind : store.find? (fun k => k.id = id) with _ | k
    · constructor
      · simp [validate, hfind]
      · simp [validate, hfind, isKeyValid]
    · have hiff : validate store now id = .Valid ↔
          k.status = .active ∧ now < k.expiresAt := by
        cases hst : k.status with
        | revoked => simp [validate, hfind, hst]
        | active =>
          by_cases hexp : k.expiresAt ≤ now
          · simp [validate, hfind, hst, hexp, not_lt.mpr hexp]
          · simp [validate, hfind, hst, hexp, not_le.mp hexp]
      constructor
      · rw [hiff]
        constructor
        · intro h
          exact ⟨k, hfind, h.1, h.2⟩
        · rintro ⟨k', hk', h1, h2⟩
          rw [hfind] at hk'
          injection hk' with hk'
          subst hk'
          exact ⟨h1, h2⟩
      · rw [hiff]
        simp [isKeyValid, hfind]
  · intro maxKeyHours now store newId ownerId ttl h1 h2 hfresh
    have hmax : ¬ maxKeyHours < ttl := not_lt.mpr h2
    have hpos : ¬ ttl ≤ 0 := by linarith
    have hfl : (1 : ℤ) ≤ ⌊ttl⌋ := Int.le_floor.mpr (by exact_mod_cast h1)
    have hexp : ¬ now + ⌊ttl⌋ * 3600000 ≤ now := by
      have h3 : (1 : ℚ) ≤ (⌊ttl⌋ : ℚ) := by exact_mod_cast hfl
      nlinarith
    rw [create, if_neg hmax, getExpirationDate, if_neg hpos]
    simp only [validate]
    rw [find?_append_right (fun k hk => by simp [hfresh k hk])]
    simp [List.find?, hexp]

theorem C4_valid_iff_active_unexpired_witness :
    validate (create 720 0 [] "k1" "u" 2).1 0 "k1" = .Valid :=
  C4_valid_iff_active_unexpired.2 720 0 [] "k1" "u" 2 (by norm_num)
    (by norm_num) (by simp)

/-! ### Claims C8, C6: resolver selection and fallback -/

theorem validPublicCand_ne_nil {e : List Char}
    (h : validPublicCand e = true) : normalize e ≠ [] := by
  intro hnil
  rw [validPublicCand, hnil] at h
  simp [isIP_nil] at h

/-- Claim C8: if no candidate is both syntactically valid and public, the
resolver returns the first syntactically valid candidate regardless of
classification, and the sentinel `"unknown"` when no candidate parses at
all; in particular a request with only the loopback peer address `::1`
resolves to `::1`. -/
theorem C8_fallback_first_valid_else_unknown :
    (∀ (pref : List Char) (req : Req),
      firstPublic? (collectCandidates req) = none →
      getClientIp pref req =
        (match firstValid? (collectCandidates req) with
         | some v => v
         | none => "unknown".data)) ∧
    getClientIp [] { ip := some "::1".data } = "::1".data ∧
    getClientIp [] {} = "unknown".data := by
  refine ⟨?_, by decide, by decide⟩
  intro pref req h
  rcases hv : firstValid? (collectCandidates req) with _ | v
  · simp [getClientIp, pickFirstPublic, h, hv, orElseStr]
  · have hne : v ≠ [] := firstValid?_ne_nil hv
    simp [getClientIp, pickFirstPublic, h, hv, orElseStr, hne]

theorem C8_fallback_witness :
    getClientIp [] { ip := some "10.0.0.7".data } = "10.0.0.7".data := by
  have h := C8_fallback_first_valid_else_unknown.1 []
    { ip := some "10.0.0.7".data } (by decide)
  rw [h]
  decide

/-- Claim C6: when no higher-priority source (the `Forwarded` header or
the vendor headers) yields a valid public address, the leftmost
syntactically valid public entry of `X-Forwarded-For` (split on commas,
trimmed) wins; concretely, `X-Forwarded-For: "203.0.113.5, 10.0.0.1"`
with no higher-priority headers resolves to `"203.0.113.5"`. -/
theorem C6_xff_leftmost_public :
    (∀ (pref : List Char) (req : Req) (pre post : List (List Char))
      (e : List Char),
      pref ≠ "private".data →
      firstPublic? (forwardedCandidates req ++ directCandidates req) = none →
      xffCandidates req = pre ++ e :: post →
      (∀ x ∈ pre, validPublicCand x = false) →
      validPublicCand e = true →
      getClientIp pref req = normalize e) ∧
    getClientIp [] { xForwardedFor := some "203.0.113.5, 10.0.0.1".data } =
      "203.0.113.5".data := by
  refine ⟨?_, by decide⟩
  intro pref req pre post e hpref hhi hxff hpre he
  have hX : firstPublic? (xffCandidates req) = some (normalize e) := by
    rw [hxff, firstPublic?_append, firstPublic?_eq_none hpre]
    simp [firstPublic?_cons, he]
  have hall : firstPublic? (collectCandidates req) = some (normalize e) := by
    rw [collectCandidates, firstPublic?_append, firstPublic?_append, hhi, hX]
    rfl
  have hne := validPublicCand_ne_nil he
  simp [getClientIp, pickFirstPublic, hall, orElseStr, hne, hpref]

/-! ### Claim C7: per-candidate normalization -/

theorem bracketData : "[".data = ['['] := rfl

theorem ffffData : "::ffff:".data = [':', ':', 'f', 'f', 'f', 'f', ':'] := rfl

theorem breakAtChar_at (ch : Char) (q r : List Char)
    (hq : ∀ c ∈ q, c ≠ ch) : breakAtChar ch (q ++ ch :: r) = some (q, r) := by
  rw [breakAtChar_append ch q _ hq]
  simp [breakAtChar]

theorem breakAtChar_isSome_of_mem {ch : Char} {t : List Char}
    (h : ch ∈ t) : ∃ qr, breakAtChar ch t = some qr := by
  induction t with
  | nil => cases h
  | cons c cs ih =>
    by_cases hc : c = ch
    · exact ⟨([], cs), by simp [breakAtChar, hc]⟩
    · rcases List.mem_cons.mp h with h' | h'
      · exact absurd h'.symm hc
      · obtain ⟨qr, hqr⟩ := ih h'
        exact ⟨(c :: qr.1, qr.2), by simp [breakAtChar_cons_ne ch c cs hc, hqr]⟩

/-- A colon-free string never starts with `::ffff:`. -/
theorem not_ffff_of_no_colon {a : List Char} (h : ∀ c ∈ a, c ≠ ':') :
    startsWithL "::ffff:".data a = false := by
  rw [ffffData]
  cases a with
  | nil => rfl
  | cons c cs =>
    have : c ≠ ':' := h c (by simp)
    simp [startsWithL, show ¬(':' = c) from fun hh => this hh.symm]

/-- A string of the form `a ++ ':' :: t` with `[` not occurring in `a`
does not start with `[`. -/
theorem not_bracket_head {a t : List Char} (ha : ∀ c ∈ a, c ≠ '[') :
    startsWithL "[".data (a ++ ':' :: t) = false := by
  rw [bracketData]
  cases a with
  | nil => simp [startsWithL]
  | cons c cs =>
    have : c ≠ '[' := ha c (by simp)
    simp [startsWithL, show ¬('[' = c) from fun hh => this hh.symm]

/-- Bracketed candidate: everything from the first `]` on is dropped,
including any `:port`. -/
theorem stripBOP_bracket (a r : List Char) (ha : ∀ c ∈ a, c ≠ ']') :
    stripBracketsOrPort ('[' :: (a ++ ']' :: r)) = a := by
  rw [stripBracketsOrPort, if_pos (by rw [bracketData]; simp [startsWithL])]
  simp only [List.drop_succ_cons, List.drop_zero]
  rw [breakAtChar_at ']' a r ha]

/-- Exactly one colon (IPv4-with-port): the port is stripped. -/
theorem stripBOP_single_colon (a p : List Char)
    (ha : ∀ c ∈ a, c ≠ ':' ∧ c ≠ '[') (hp : ∀ c ∈ p, c ≠ ':') :
    stripBracketsOrPort (a ++ ':' :: p) = a := by
  rw [stripBracketsOrPort, if_neg (by simp [not_bracket_head
    (fun c hc => (ha c hc).2)])]
  rw [breakAtChar_at ':' a p (fun c hc => (ha c hc).1)]
  simp only
  rw [breakAtChar_eq_none hp]

/-- Two or more colons (IPv6 literal): left intact. -/
theorem stripBOP_multi_colon (x y : List Char)
    (hx : ∀ c ∈ x, c ≠ ':' ∧ c ≠ '[') (hmem : ':' ∈ y) :
    stripBracketsOrPort (x ++ ':' :: y) = x ++ ':' :: y := by
  rw [stripBracketsOrPort, if_neg (by simp [not_bracket_head
    (fun c hc => (hx c hc).2)])]
  rw [breakAtChar_at ':' x y (fun c hc => (hx c hc).1)]
  simp only
  obtain ⟨qr, hqr⟩ := breakAtChar_isSome_of_mem hmem
  rw [hqr]

theorem unwrapFfff_of_not {ip : List Char}
    (h : startsWithL "::ffff:".data ip = false) : unwrapFfff ip = ip := by
  rw [unwrapFfff, if_neg (by simp [h])]

theorem unwrapFfff_wrap (a : List Char) :
    unwrapFfff ([':', ':', 'f', 'f', 'f', 'f', ':'] ++ a) = a := by
  rw [unwrapFfff, if_pos (by rw [ffffData]; simp [startsWithL])]
  simp

/-- Claim C7: per-candidate normalization (i) is insensitive to
surrounding whitespace; (ii) strips brackets and anything after `]` from a
bracketed form, including a trailing `:port`; (iii) strips the port when
exactly one colon is present; (iv) leaves multi-colon IPv6 literals
intact; (v) unwraps a `::ffff:` IPv4-mapped prefix; and (vi) concretely,
`Forwarded: for="198.51.100.2:1234"` resolves to `"198.51.100.2"`. -/
theorem C7_normalize_spec :
    (∀ s, normalize s = normalize (trimL s)) ∧
    (∀ a r, (∀ c ∈ a, c ≠ ']' ∧ isSpaceCh c = false) →
      (∀ c ∈ r, isSpaceCh c = false) →
      startsWithL "::ffff:".data a = false →
      normalize ('[' :: (a ++ ']' :: r)) = a) ∧
    (∀ a p, (∀ c ∈ a, c ≠ ':' ∧ c ≠ '[' ∧ isSpaceCh c = false) →
      (∀ c ∈ p, c ≠ ':' ∧ isSpaceCh c = false) →
      normalize (a ++ ':' :: p) = a) ∧
    (∀ x y, (∀ c ∈ x, c ≠ ':' ∧ c ≠ '[' ∧ isSpaceCh c = false) →
      (∀ c ∈ y, isSpaceCh c = false) → ':' ∈ y →
      startsWithL "::ffff:".data (x ++ ':' :: y) = false →
      normalize (x ++ ':' :: y) = x ++ ':' :: y) ∧
    (∀ a, (∀ c ∈ a, isSpaceCh c = false) →
      normalize ("::ffff:".data ++ a) = a) ∧
    getClientIp [] { forwarded := some "for=\"198.51.100.2:1234\"".data } =
      "198.51.100.2".data := by
  refine ⟨normalize_trimL, ?_, ?_, ?_, ?_, by decide⟩
  · -- (ii) bracketed form
    intro a r ha hr hf
    have htrim : trimL ('[' :: (a ++ ']' :: r)) = '[' :: (a ++ ']' :: r) := by
      apply trimL_all_nonspace
      intro c hc
      rcases List.mem_cons.mp hc with rfl | hc
      · decide
      · rcases List.mem_append.mp hc with hc | hc
        · exact (ha c hc).2
        · rcases List.mem_cons.mp hc with rfl | hc
          · decide
          · exact hr c hc
    rw [normalize, if_neg (by simp), htrim,
      stripBOP_bracket a r (fun c hc => (ha c hc).1), unwrapFfff_of_not hf]
  · -- (iii) single-colon port strip
    intro a p ha hp
    have htrim : trimL (a ++ ':' :: p) = a ++ ':' :: p := by
      apply trimL_all_nonspace
      intro c hc
      rcases List.mem_append.mp hc with hc | hc
      · exact (ha c hc).2.2
      · rcases List.mem_cons.mp hc with rfl | hc
        · decide
        · exact (hp c hc).2
    rw [normalize, if_neg (by simp), htrim,
      stripBOP_single_colon a p (fun c hc => ⟨(ha c hc).1, (ha c hc).2.1⟩)
        (fun c hc => (hp c hc).1),
      unwrapFfff_of_not (not_ffff_of_no_colon (fun c hc => (ha c hc).1))]
  · -- (iv) multi-colon literal intact
    intro x y hx hy hmem hf
    have htrim : trimL (x ++ ':' :: y) = x ++ ':' :: y := by
      apply trimL_all_nonspace
      intro c hc
      rcases List.mem_append.mp hc with hc | hc
      · exact (hx c hc).2.2
      · rcases List.mem_cons.mp hc with rfl | hc
        · decide
        · exact hy c hc
    rw [normalize, if_neg (by simp), htrim,
      stripBOP_multi_colon x y (fun c hc => ⟨(hx c hc).1, (hx c hc).2.1⟩) hmem,
      unwrapFfff_of_not hf]
  · -- (v) ::ffff: unwrap
    intro a ha
    rw [ffffData]
    have htrim : trimL ([':', ':', 'f', 'f', 'f', 'f', ':'] ++ a) =
        [':', ':', 'f', 'f', 'f', 'f', ':'] ++ a := by
      apply trimL_all_nonspace
      intro c hc
      rcases List.mem_append.mp hc with hc | hc
      · fin_cases hc <;> decide
      · exact ha c hc
    have hstrip : stripBracketsOrPort ([':', ':', 'f', 'f', 'f', 'f', ':'] ++ a) =
        [':', ':', 'f', 'f', 'f', 'f', ':'] ++ a := by
      have : ([':', ':', 'f', 'f', 'f', 'f', ':'] ++ a : List Char) =
          [] ++ ':' :: (([':', 'f', 'f', 'f', 'f'] : List Char) ++ ':' :: a) := by
        simp
      rw [this]
      apply stripBOP_multi_colon
      · simp
      · simp
    rw [normalize, if_neg (by simp), htrim, hstrip]
    have : ([':', ':', 'f', 'f', 'f', 'f', ':'] ++ a : List Char) =
        [':', ':', 'f', 'f', 'f', 'f', ':'] ++ a := rfl
    exact unwrapFfff_wrap a

theorem C7_normalize_spec_witness :
    normalize "[2001:db8::1]:443".data = "2001:db8::1".data ∧
      normalize "198.51.100.2:1234".data = "198.51.100.2".data ∧
      normalize "2001:db8::1".data = "2001:db8::1".data ∧
      normalize "::ffff:203.0.113.9".data = "203.0.113.9".data := by
  refine ⟨?_, ?_, ?_, ?_⟩
  · exact C7_normalize_spec.2.1 "2001:db8::1".data ":443".data
      (by decide) (by decide) (by decide)
  · exact C7_normalize_spec.2.2.1 "198.51.100.2".data "1234".data
      (by decide) (by decide)
  · exact C7_normalize_spec.2.2.2.1 "2001".data "db8::1".data
      (by decide) (by decide) (by decide) (by decide)
  · exact C7_normalize_spec.2.2.2.2.1 "203.0.113.9".data (by decide)

theorem C6_xff_leftmost_public_witness :
    getClientIp [] { xForwardedFor := some " 10.0.0.1 , 203.0.113.5".data } =
      "203.0.113.5".data := by
  have h := C6_xff_leftmost_public.1 []
    { xForwardedFor := some " 10.0.0.1 , 203.0.113.5".data }
    ["10.0.0.1".data] [] "203.0.113.5".data
    (by decide) (by decide) (by decide) (by decide) (by decide)
  rw [h]
  decide

/-! ### Claim C10: agreement of `getClientIp` and `getIpVariants` -/

theorem normalizeV_eq : normalizeV = normalize := rfl

theorem isPrivateV_eq : isPrivateV = isPrivate := rfl

theorem firstPublicV?_eq : firstPublicV? = firstPublic? := by
  funext l
  induction l with
  | nil => rfl
  | cons a l ih => simp [firstPublicV?, firstPublic?, normalizeV_eq, isPrivateV_eq, ih]

theorem firstValidV?_eq : firstValidV? = firstValid? := by
  funext l
  induction l with
  | nil => rfl
  | cons a l ih => simp [firstValidV?, firstValid?, normalizeV_eq, ih]

theorem pickFirstPublicV_eq : pickFirstPublicV = pickFirstPublic := by
  funext l
  rw [pickFirstPublicV, pickFirstPublic, firstPublicV?_eq, firstValidV?_eq]

theorem collectCandidatesV_eq : collectCandidatesV = collectCandidates := rfl

/-- Claim C10: under the default (non-`private`) IP preference, the two
independently implemented resolver paths agree: `getClientIp` equals
`getIpVariants`' `publicIp` when that is non-null, else its `privateIp`
when that is non-null, else the sentinel `"unknown"`. -/
theorem C10_resolvers_agree (pref : List Char) (req : Req)
    (h : pref ≠ "private".data) :
    getClientIp pref req =
      (match getIpVariants req with
       | (some p, _) => p
       | (none, some v) => v
       | (none, none) => "unknown".data) := by
  rw [getIpVariants, collectCandidatesV_eq, pickFirstPublicV_eq,
    firstValidV?_eq]
  rcases hp : firstPublic? (collectCandidates req) with _ | x
  · rcases hv : firstValid? (collectCandidates req) with _ | v
    · simp [getClientIp, pickFirstPublic, hp, hv, orElseStr, h]
    · have hne := firstValid?_ne_nil hv
      simp [getClientIp, pickFirstPublic, hp, hv, orElseStr, hne, h]
  · have hne := firstPublic?_ne_nil hp
    simp [getClientIp, pickFirstPublic, hp, orElseStr, hne, h]

theorem C10_resolvers_agree_witness :
    getClientIp [] xffReq =
      (match getIpVariants xffReq with
       | (some p, _) => p
       | (none, some v) => v
       | (none, none) => "unknown".data) :=
  C10_resolvers_agree [] xffReq (by decide)

/-! ### Claim C5: segment values and canonical digit strings -/

theorem segVal_nil : segVal [] = 0 := rfl

theorem segVal_one (c : Char) : segVal [c] = c.toNat - 48 := by
  simp [segVal, List.foldl]

theorem segVal_two (c1 c2 : Char) :
    segVal [c1, c2] = 10 * (c1.toNat - 48) + (c2.toNat - 48) := by
  simp [segVal, List.foldl]
  ring

theorem segVal_three (c1 c2 c3 : Char) :
    segVal [c1, c2, c3] =
      100 * (c1.toNat - 48) + 10 * (c2.toNat - 48) + (c3.toNat - 48) := by
  simp [segVal, List.foldl]
  ring

theorem isV4Seg1_facts {c : Char} (h : isV4Seg [c] = true) :
    48 ≤ c.toNat ∧ c.toNat ≤ 57 := by
  simpa [isV4Seg, isDigitCh] using h

theorem isV4Seg2_facts {c1 c2 : Char} (h : isV4Seg [c1, c2] = true) :
    49 ≤ c1.toNat ∧ c1.toNat ≤ 57 ∧ 48 ≤ c2.toNat ∧ c2.toNat ≤ 57 := by
  have h' := h
  simp [isV4Seg, isDigitCh] at h'
  exact ⟨h'.1.1, h'.1.2, h'.2.1, h'.2.2⟩

theorem isV4Seg3_facts {c1 c2 c3 : Char} (h : isV4Seg [c1, c2, c3] = true) :
    49 ≤ c1.toNat ∧ c1.toNat ≤ 57 ∧ 48 ≤ c2.toNat ∧ c2.toNat ≤ 57 ∧
      48 ≤ c3.toNat ∧ c3.toNat ≤ 57 := by
  have h' := h
  simp [isV4Seg, isDigitCh] at h'
  have h49 : ('1' : Char).toNat = 49 := rfl
  have h50 : ('2' : Char).toNat = 50 := rfl
  have h53 : ('5' : Char).toNat = 53 := rfl
  rcases h' with (⟨⟨rfl, h2⟩, h3⟩ | ⟨⟨rfl, h2⟩, h3⟩) | ⟨⟨rfl, rfl⟩, h3⟩ <;>
    refine ⟨by omega, by omega, by omega, by omega, by omega, by omega⟩

theorem isV4Seg_long_false (c1 c2 c3 c4 : Char) (r : List Char) :
    isV4Seg (c1 :: c2 :: c3 :: c4 :: r) = false := rfl

theorem isV4Seg_nil_false : isV4Seg [] = false := rfl

/-- Every character of a valid IPv4 segment is a decimal digit. -/
theorem isV4Seg_digits {g : List Char} (h : isV4Seg g = true) :
    ∀ c ∈ g, isDigitCh c = true := by
  rcases g with _ | ⟨c1, _ | ⟨c2, _ | ⟨c3, _ | r⟩⟩⟩
  · rw [isV4Seg_nil_false] at h; cases h
  · have := isV4Seg1_facts h
    intro c hc
    rcases List.mem_cons.mp hc with rfl | hc
    · simp [isDigitCh]; omega
    · cases hc
  · have := isV4Seg2_facts h
    intro c hc
    simp only [List.mem_cons] at hc
    rcases hc with rfl | rfl | hc
    · simp [isDigitCh]; omega
    · simp [isDigitCh]; omega
    · cases hc
  · have := isV4Seg3_facts h
    intro c hc
    simp only [List.mem_cons] at hc
    rcases hc with rfl | rfl | rfl | hc
    · simp [isDigitCh]; omega
    · simp [isDigitCh]; omega
    · simp [isDigitCh]; omega
    · cases hc
  · rw [isV4Seg_long_false] at h; cases h

theorem seg_val10 {g : List Char} (h : isV4Seg g = true)
    (hv : segVal g = 10) : g = ['1', '0'] := by
  have h48 : ('0' : Char).toNat = 48 := rfl
  have h49 : ('1' : Char).toNat = 49 := rfl
  rcases g with _ | ⟨c1, _ | ⟨c2, _ | ⟨c3, _ | r⟩⟩⟩
  · rw [segVal_nil] at hv; cases hv
  · have := isV4Seg1_facts h
    rw [segVal_one] at hv
    omega
  · have := isV4Seg2_facts h
    rw [segVal_two] at hv
    have e1 : c1 = '1' := charToNatInj (by omega)
    have e2 : c2 = '0' := charToNatInj (by omega)
    rw [e1, e2]
  · have := isV4Seg3_facts h
    rw [segVal_three] at hv
    omega
  · rw [isV4Seg_long_false] at h; cases h

theorem seg_val192 {g : List Char} (h : isV4Seg g = true)
    (hv : segVal g = 192) : g = ['1', '9', '2'] := by
  have h49 : ('1' : Char).toNat = 49 := rfl
  have h57 : ('9' : Char).toNat = 57 := rfl
  have h50 : ('2' : Char).toNat = 50 := rfl
  rcases g with _ | ⟨c1, _ | ⟨c2, _ | ⟨c3, _ | r⟩⟩⟩
  · rw [segVal_nil] at hv; cases hv
  · have := isV4Seg1_facts h
    rw [segVal_one] at hv
    omega
  · have := isV4Seg2_facts h
    rw [segVal_two] at hv
    omega
  · have := isV4Seg3_facts h
    rw [segVal_three] at hv
    have e1 : c1 = '1' := charToNatInj (by omega)
    have e2 : c2 = '9' := charToNatInj (by omega)
    have e3 : c3 = '2' := charToNatInj (by omega)
    rw [e1, e2, e3]
  · rw [isV4Seg_long_false] at h; cases h

theorem seg_val168 {g : List Char} (h : isV4Seg g = true)
    (hv : segVal g = 168) : g = ['1', '6', '8'] := by
  have h49 : ('1' : Char).toNat = 49 := rfl
  have h54 : ('6' : Char).toNat = 54 := rfl
  have h56 : ('8' : Char).toNat = 56 := rfl
  rcases g with _ | ⟨c1, _ | ⟨c2, _ | ⟨c3, _ | r⟩⟩⟩
  · rw [segVal_nil] at hv; cases hv
  · have := isV4Seg1_facts h
    rw [segVal_one] at hv
    omega
  · have := isV4Seg2_facts h
    rw [segVal_two] at hv
    omega
  · have := isV4Seg3_facts h
    rw [segVal_three] at hv
    have e1 : c1 = '1' := charToNatInj (by omega)
    have e2 : c2 = '6' := charToNatInj (by omega)
    have e3 : c3 = '8' := charToNatInj (by omega)
    rw [e1, e2, e3]
  · rw [isV4Seg_long_false] at h; cases h

/-- Matching a dot-terminated literal against a string of the form
`seg ++ '.' :: rest` where neither side contains a dot: the literal must
equal the segment exactly, and matching continues after the dot. -/
theorem startsWith_seg_iff {q w pa rest : List Char}
    (hq : ∀ c ∈ q, c ≠ '.') (hpa : ∀ c ∈ pa, c ≠ '.') :
    (startsWithL (q ++ '.' :: w) (pa ++ '.' :: rest) = true ↔
      pa = q ∧ startsWithL w rest = true) := by
  induction q generalizing pa with
  | nil =>
    cases pa with
    | nil => simp [startsWithL]
    | cons c pc =>
      have hc : c ≠ '.' := hpa c (by simp)
      simp [startsWithL, show ¬('.' = c) from fun hh => hc hh.symm]
  | cons x q' ih =>
    cases pa with
    | nil =>
      have hx : x ≠ '.' := hq x (by simp)
      simp [startsWithL, show ¬(x = '.') from hx]
    | cons c pc =>
      rw [List.cons_append, List.cons_append]
      rw [show startsWithL (x :: (q' ++ '.' :: w)) (c :: (pc ++ '.' :: rest)) =
        ((x == c) && startsWithL (q' ++ '.' :: w) (pc ++ '.' :: rest))
        from rfl]
      simp only [Bool.and_eq_true, beq_iff_eq]
      rw [ih (fun a ha => hq a (by simp [ha])) (fun a ha => hpa a (by simp [ha]))]
      constructor
      · rintro ⟨rfl, rfl, hw⟩
        exact ⟨rfl, hw⟩
      · rintro ⟨hh, hw⟩
        injection hh with h1 h2
        exact ⟨h1.symm, h2, hw⟩

theorem isV4Seg_no_dot {g : List Char} (h : isV4Seg g = true) :
    ∀ c ∈ g, c ≠ '.' := by
  intro c hc hdot
  have hd := isV4Seg_digits h c hc
  rw [hdot] at hd
  simp [isDigitCh] at hd

/-- For a valid IPv4 string `pa ++ '.' :: rest`, the textual check
`startsWith('10.')` coincides with the first octet having value 10. -/
theorem startsWith10_eq {pa rest : List Char} (h : isV4Seg pa = true) :
    startsWithL "10.".data (pa ++ '.' :: rest) = decide (segVal pa = 10) := by
  have hq : ∀ c ∈ (['1', '0'] : List Char), c ≠ '.' := by decide
  have hkey := @startsWith_seg_iff ['1', '0'] [] pa rest hq
    (isV4Seg_no_dot h)
  rw [show ("10.".data : List Char) = ['1', '0'] ++ '.' :: [] from rfl]
  rw [Bool.eq_iff_iff, decide_eq_true_iff, hkey]
  constructor
  · rintro ⟨rfl, _⟩
    rfl
  · intro hv
    exact ⟨seg_val10 h hv, rfl⟩

/-- For a valid IPv4 string, `startsWith('192.168.')` coincides with the
first two octets having values 192 and 168. -/
theorem startsWith192168_eq {pa pb rest : List Char}
    (ha : isV4Seg pa = true) (hb : isV4Seg pb = true) :
    startsWithL "192.168.".data (pa ++ '.' :: (pb ++ '.' :: rest)) =
      decide (segVal pa = 192 ∧ segVal pb = 168) := by
  have hq1 : ∀ c ∈ (['1', '9', '2'] : List Char), c ≠ '.' := by decide
  have hq2 : ∀ c ∈ (['1', '6', '8'] : List Char), c ≠ '.' := by decide
  have hk1 := @startsWith_seg_iff ['1', '9', '2'] (['1', '6', '8'] ++ '.' :: [])
    pa (pb ++ '.' :: rest) hq1 (isV4Seg_no_dot ha)
  have hk2 := @startsWith_seg_iff ['1', '6', '8'] [] pb rest hq2
    (isV4Seg_no_dot hb)
  rw [show ("192.168.".data : List Char) =
    ['1', '9', '2'] ++ '.' :: (['1', '6', '8'] ++ '.' :: []) from rfl]
  rw [Bool.eq_iff_iff, decide_eq_true_iff, hk1, hk2]
  constructor
  · rintro ⟨rfl, rfl, _⟩
    exact ⟨rfl, rfl⟩
  · rintro ⟨hv1, hv2⟩
    exact ⟨seg_val192 ha hv1, seg_val168 hb hv2, rfl⟩

theorem parseIPv4_some {s : List Char} {a b c d : Nat}
    (h : parseIPv4 s = some (a, b, c, d)) :
    ∃ pa pb pc pd, splitOnChar '.' s = [pa, pb, pc, pd] ∧
      isV4Seg pa = true ∧ isV4Seg pb = true ∧ isV4Seg pc = true ∧
      isV4Seg pd = true ∧ a = segVal pa ∧ b = segVal pb ∧ c = segVal pc ∧
      d = segVal pd := by
  rw [parseIPv4] at h
  split at h
  · rename_i pa pb pc pd heq
    split at h
    · rename_i hseg
      simp only [Bool.and_eq_true] at hseg
      injection h with h'
      injection h' with h1 h'
      injection h' with h2 h'
      injection h' with h3 h4
      exact ⟨pa, pb, pc, pd, heq, hseg.1.1.1, hseg.1.1.2, hseg.1.2, hseg.2,
        h1.symm, h2.symm, h3.symm, h4.symm⟩
    · cases h
  · cases h

/-! ### Claim C5: a valid IPv6 literal has no dot before its first colon -/

theorem isHexCh_dot : isHexCh '.' = false := rfl

theorem isHexQuad_dot {g : List Char} (h : '.' ∈ g) : isHexQuad g = false := by
  have hall : g.all isHexCh = false := by
    rw [List.all_eq_false]
    exact ⟨'.', h, by simp [isHexCh]⟩
  simp [isHexQuad, hall]

theorem groupsOk_head_not_hex {g : List Char} (gs : List (List Char))
    (h : isHexQuad g = false) : groupsOk (g :: gs) ≠ some 8 := by
  cases gs with
  | nil =>
    rw [groupsOk, if_neg (by simp [h])]
    split <;> simp
  | cons g2 gs2 =>
    rw [show groupsOk (g :: g2 :: gs2) =
      (if isHexQuad g then (groupsOk (g2 :: gs2)).map (· + 1) else none)
      from rfl]
    rw [if_neg (by simp [h])]
    simp

/-- The first colon-group of `p ++ '.' :: t` (with `p` colon-free)
contains the dot. -/
theorem splitGroups_early_dot (p t : List Char) (hp : ∀ c ∈ p, c ≠ ':') :
    ∃ g' gs', splitGroups (p ++ '.' :: t) = (p ++ '.' :: g') :: gs' := by
  obtain ⟨g, gs, h1, h2⟩ := splitOnChar_append ':' p ('.' :: t) hp
  rcases hsp : splitOnChar ':' t with _ | ⟨g0, gs0⟩
  · exact absurd hsp (splitOnChar_ne_nil ':' t)
  · rw [splitOnChar_cons ':' '.' t g0 gs0 hsp, if_neg (by decide)] at h2
    injection h2 with h2a h2b
    subst h2a
    subst h2b
    refine ⟨g0, gs0, ?_⟩
    rw [splitGroups, if_neg (by simp), h1]

theorem ipv6Core_early_dot (p r : List Char) (hp : ∀ c ∈ p, c ≠ ':') :
    ipv6Core (p ++ '.' :: r) = false := by
  have hdotc : ('.' : Char) ≠ ':' := by decide
  have hb : breakOnCC (p ++ '.' :: r) =
      (breakOnCC r).map (fun q => (p ++ '.' :: q.1, q.2)) := by
    rw [breakOnCC_append p _ hp, breakOnCC_cons '.' r hdotc]
    rcases breakOnCC r with _ | q <;> simp
  rcases hr : breakOnCC r with _ | ⟨l0, r0⟩
  · rw [hr] at hb
    simp only [Option.map_none'] at hb
    rw [ipv6Core, hb]
    obtain ⟨g', gs', hsg⟩ := splitGroups_early_dot p r hp
    rw [hsg]
    simp only [decide_eq_false_iff_not]
    exact groupsOk_head_not_hex gs' (isHexQuad_dot (by simp))
  · rw [hr] at hb
    simp only [Option.map_some'] at hb
    rw [ipv6Core, hb]
    rcases hr0 : breakOnCC r0 with _ | q2
    · obtain ⟨g', gs', hsg⟩ := splitGroups_early_dot p l0 hp
      simp only [hr0, hsg, List.all_cons]
      simp [isHexQuad_dot (show ('.' : Char) ∈ p ++ '.' :: g' by simp)]
    · simp [hr0]

theorem isIPv6_early_dot (p r : List Char) (hp1 : ∀ c ∈ p, c ≠ ':')
    (hp2 : ∀ c ∈ p, c ≠ '%') : isIPv6 (p ++ '.' :: r) = false := by
  have hdotp : ('.' : Char) ≠ '%' := by decide
  have hb : breakAtChar '%' (p ++ '.' :: r) =
      (breakAtChar '%' r).map (fun q => (p ++ '.' :: q.1, q.2)) := by
    rw [breakAtChar_append '%' p _ hp2, breakAtChar_cons_ne '%' '.' r hdotp]
    rcases breakAtChar '%' r with _ | q <;> simp
  rcases hr : breakAtChar '%' r with _ | ⟨r1, z⟩
  · rw [hr] at hb
    simp only [Option.map_none'] at hb
    rw [isIPv6, hb]
    exact ipv6Core_early_dot p r hp1
  · rw [hr] at hb
    simp only [Option.map_some'] at hb
    rw [isIPv6, hb]
    simp [ipv6Core_early_dot p r1 hp1]

/-! ### Claim C5: main theorems -/

theorem jsOctet?_some {g : List Char} {a : Nat} (h : jsOctet? g = some a) :
    g.all isDigitCh = true ∧ segVal g = a := by
  rw [jsOctet?] at h
  split at h
  · rename_i hall
    injection h with h'
    exact ⟨hall, h'⟩
  · cases h

theorem digit_not_colon_percent {g : List Char} (h : g.all isDigitCh = true) :
    (∀ c ∈ g, c ≠ ':') ∧ (∀ c ∈ g, c ≠ '%') := by
  have h58 : (':' : Char).toNat = 58 := rfl
  have h37 : ('%' : Char).toNat = 37 := rfl
  constructor <;>
    · intro c hc hbad
      have hd := List.all_eq_true.mp h c hc
      rw [hbad] at hd
      simp [isDigitCh] at hd

/-- On a valid IPv6 literal the numeric-octet check of `isPrivate` never
fires: its four dot-pieces would put a digit run before the first colon. -/
theorem octetRangeCheck_false_of_v6 {ip : List Char}
    (h6 : isIPv6 ip = true) : octetRangeCheck ip = false := by
  rw [octetRangeCheck]
  split
  · rename_i a b o3 o4 heq
    rw [decide_eq_false_iff_not]
    intro hP
    have hab : a = 172 ∨ a = 169 := by
      rcases hP with ⟨h, _⟩ | ⟨h, _⟩
      · exact Or.inl h
      · exact Or.inr h
    rcases hsp : splitOnChar '.' ip
      with _ | ⟨pa, _ | ⟨pb, _ | ⟨pc, _ | ⟨pd, _ | rest⟩⟩⟩⟩ <;>
      rw [hsp] at heq
    · simp at heq
    · simp at heq
    · simp at heq
    · simp at heq
    · simp only [List.map_cons, List.map_nil, List.cons.injEq, and_true]
        at heq
      obtain ⟨hpa, _⟩ := heq
      obtain ⟨hdig, hval⟩ := jsOctet?_some hpa
      have hpane : pa ≠ [] := by
        intro hn
        rw [hn, segVal_nil] at hval
        omega
      obtain ⟨hnc, hnp2⟩ := digit_not_colon_percent hdig
      have hjoin := splitOnChar_join '.' ip
      rw [hsp] at hjoin
      have hip : ip = pa ++ '.' :: (pb ++ '.' :: (pc ++ '.' :: pd)) := by
        rw [← hjoin]
        simp [joinSep]
      have hfalse := isIPv6_early_dot pa (pb ++ '.' :: (pc ++ '.' :: pd))
        hnc hnp2
      rw [← hip] at hfalse
      rw [hfalse] at h6
      cases h6
    · simp at heq
  · rfl

/-- Claim C5 as stated is refuted by `fe81::1`: it is a syntactically
valid IPv6 address inside `fe80::/10` (first group `0xfe81`), so the claim
classifies it private, but the code's textual check `startsWith('fe80:')`
classifies it public.  (`fd::1` refutes the other direction: outside
`fc00::/7`, yet classified private by `startsWith('fd')`.) -/
theorem C5_classification_counterexample :
    ¬ (∀ ip : List Char, isIP ip = true → isPrivate ip = claimC5Private ip) := by
  intro hall
  have h := hall "fe81::1".data (by decide)
  revert h
  decide

/-- Claim C5 (amended): over `net.isIP`-valid strings, the private
classification holds exactly for: the literals `127.0.0.1` and `::1`;
IPv4 addresses in `10.0.0.0/8`, `172.16.0.0/12`, `192.168.0.0/16` and
`169.254.0.0/16`; and addresses whose lowercased text begins with `fc`,
`fd` or `fe80:` (a textual approximation of `fc00::/7` and `fe80::/10`).
Every other valid IP is classified public. -/
theorem C5_classification_amended (ip : List Char) (h : isIP ip = true) :
    isPrivate ip = amendedC5Private ip := by
  by_cases h4 : isIPv4 ip = true
  · obtain ⟨a, b, c, d, hparse⟩ : ∃ a b c d, parseIPv4 ip = some (a, b, c, d) := by
      rcases hp : parseIPv4 ip with _ | ⟨a, b, c, d⟩
      · rw [isIPv4, hp] at h4
        cases h4
      · exact ⟨a, b, c, d, rfl⟩
    obtain ⟨pa, pb, pc, pd, hsplit, s1, s2, s3, s4, e1, e2, e3, e4⟩ :=
      parseIPv4_some hparse
    have hjoin := splitOnChar_join '.' ip
    rw [hsplit] at hjoin
    have hip : ip = pa ++ '.' :: (pb ++ '.' :: (pc ++ '.' :: pd)) := by
      rw [← hjoin]
      simp [joinSep]
    have hnil : decide (ip = []) = false := by
      apply decide_eq_false
      simp [hip]
    have hA : startsWithL "10.".data ip = decide (segVal pa = 10) := by
      rw [hip]
      exact startsWith10_eq s1
    have hB : startsWithL "192.168.".data ip =
        decide (segVal pa = 192 ∧ segVal pb = 168) := by
      rw [hip]
      exact startsWith192168_eq s1 s2
    have hoct : octetRangeCheck ip =
        decide ((a = 172 ∧ 16 ≤ b ∧ b ≤ 31) ∨ (a = 169 ∧ b = 254)) := by
      have j1 : jsOctet? pa = some a := by
        rw [jsOctet?, if_pos (List.all_eq_true.mpr (isV4Seg_digits s1)), e1]
      have j2 : jsOctet? pb = some b := by
        rw [jsOctet?, if_pos (List.all_eq_true.mpr (isV4Seg_digits s2)), e2]
      rw [octetRangeCheck, hsplit]
      simp [j1, j2]
    rw [isPrivate, amendedC5Private, hparse, hA, hB, hoct, hnil]
    rw [Bool.eq_iff_iff]
    subst e1
    subst e2
    simp only [Bool.or_eq_true, decide_eq_true_eq]
    tauto
  · have h6 : isIPv6 ip = true := by
      rw [isIP, Bool.or_eq_true] at h
      rcases h with h | h
      · exact absurd h h4
      · exact h
    have hnp : parseIPv4 ip = none := by
      rcases hp : parseIPv4 ip with _ | x
      · rfl
      · exact absurd (by rw [isIPv4, hp]; rfl) h4
    have hne : ¬ ip = [] := by
      intro hn
      rw [hn] at h6
      exact absurd h6 (by decide)
    have hA : startsWithL "10.".data ip = false := by
      cases hA : startsWithL "10.".data ip
      · rfl
      · obtain ⟨t, ht⟩ := (startsWithL_iff _ _).mp hA
        have h' : ip = ['1', '0'] ++ '.' :: t := ht
        have hfalse := isIPv6_early_dot ['1', '0'] t (by decide) (by decide)
        rw [← h'] at hfalse
        rw [hfalse] at h6
        cases h6
    have hB : startsWithL "192.168.".data ip = false := by
      cases hB : startsWithL "192.168.".data ip
      · rfl
      · obtain ⟨t, ht⟩ := (startsWithL_iff _ _).mp hB
        have h' : ip = ['1', '9', '2'] ++ '.' :: ('1' :: '6' :: '8' :: '.' :: t) := ht
        have hfalse := isIPv6_early_dot ['1', '9', '2']
          ('1' :: '6' :: '8' :: '.' :: t) (by decide) (by decide)
        rw [← h'] at hfalse
        rw [hfalse] at h6
        cases h6
    have hoct := octetRangeCheck_false_of_v6 h6
    rw [isPrivate, amendedC5Private, hnp, hA, hB, hoct,
      decide_eq_false hne]
    simp

theorem C5_classification_amended_witness :
    isPrivate "172.20.1.2".data = amendedC5Private "172.20.1.2".data ∧
      isPrivate "8.8.8.8".data = amendedC5Private "8.8.8.8".data ∧
      isPrivate "fd::1".data = amendedC5Private "fd::1".data :=
  ⟨C5_classification_amended "172.20.1.2".data (by decide),
    C5_classification_amended "8.8.8.8".data (by decide),
    C5_classification_amended "fd::1".data (by decide)⟩

end KAPI
